import Mathlib

/-!
# Performance-Testing: the libco benchmark driver (`libco_base/src/main.cpp`)

A shallow embedding of the driver: the event record, the per-pair context,
the two coroutine bodies `worker_routine` and `sender_routine` cut at their
`co_sleep(1)` calls, and `main` as a sequence of calls into the coroutine
runtime.  Definitions come first, theorems follow.

Conventions.
* `std::queue<Event>` is a `List Event` whose head is the front of the queue.
* `std::atomic<bool> done` is a `Bool`: the program has a single thread.
* `size_t count` and the loop variable `int i` are `Nat`; `i` never exceeds
  100 and `count` never exceeds the number of pushes, so no wrap-around occurs.
* `int64_t int_val` is an `Int`; only the values 0..99 and the test against
  `-1` ever occur.
-/

namespace PerfTest

/-! ## Data model (main.cpp lines 12-35) -/

/-- Tag of an event, `enum class EventType`. -/
inductive EventType
  | INT
  | STRING
  | STRING_PTR
  | STRING_CLONE
  | FLOAT
deriving DecidableEq, Repr

/-- The record `struct Event`.  The anonymous union is read through `int_val`
only; `str_ptr_val` is left uninitialised by the constructor and never read,
so it carries no information and is not represented. -/
structure Event where
  type : EventType
  int_val : Int
  str_val : String
deriving DecidableEq, Repr

/-- The constructor `Event() : type(EventType::INT), int_val(0) {}`. -/
def Event.new : Event :=
  { type := EventType.INT, int_val := 0, str_val := "" }

/-- The event built by one pass of the loop body of `sender_routine`
(lines 57-59): a fresh `Event` whose `type` is set to `INT` and whose
`int_val` is set to `i`. -/
def Event.ofInt (i : Int) : Event :=
  { Event.new with type := EventType.INT, int_val := i }

/-- The record `struct WorkerContext`: the queue and the `done` flag,
initially empty and `false`. -/
structure WorkerContext where
  queue : List Event
  done : Bool
deriving DecidableEq, Repr

/-- A value-initialised context, as in `std::vector<WorkerContext> contexts(n)`. -/
def WorkerContext.new : WorkerContext :=
  { queue := [], done := false }

/-! ## Observable actions of a coroutine -/

/-- What a coroutine body does to the outside between two suspension points. -/
inductive Act
  | push (e : Event)
  | pop (e : Event)
  | sleep (ms : Nat)
  | setDone
  | print (line : String)
deriving DecidableEq, Repr

/-- The two coroutine bodies of the program. -/
inductive Routine
  | worker_routine
  | sender_routine
deriving DecidableEq, Repr

/-! ## `worker_routine` (lines 37-52) -/

/-- Control state of a consumer coroutine. `fresh`: created, never resumed.
`parked count`: suspended inside `co_sleep(1)` on line 49 with the local
variable `count`. `returned count`: line 51 has run and the function returned. -/
inductive WorkerPC
  | fresh
  | parked (count : Nat)
  | returned (count : Nat)
deriving DecidableEq, Repr

/-- The line written by `std::cout << "Processed " << count << " events."`. -/
def report (count : Nat) : String :=
  "Processed " ++ toString count ++ " events."

/-- Execution of `worker_routine` from the loop test on line 40, with local
`count`, up to the next `co_sleep(1)` or up to the return. -/
def worker_loop (count : Nat) (ctx : WorkerContext) :
    WorkerPC × WorkerContext × List Act :=
  if ctx.done then
    (WorkerPC.returned count, ctx, [Act.print (report count)])
  else
    match ctx.queue with
    | [] => (WorkerPC.parked count, ctx, [Act.sleep 1])
    | event :: rest =>
      if event.type = EventType.INT ∧ event.int_val = -1 then
        (WorkerPC.returned count, { ctx with queue := rest },
          [Act.pop event, Act.print (report count)])
      else
        (WorkerPC.parked (count + 1), { ctx with queue := rest },
          [Act.pop event, Act.sleep 1])

/-- Resuming a consumer: a fresh one starts with `count = 0` at the loop
test, a parked one comes back from `co_sleep(1)` to the loop test, a returned
one is never run again. -/
def worker_routine (pc : WorkerPC) (ctx : WorkerContext) :
    WorkerPC × WorkerContext × List Act :=
  match pc with
  | WorkerPC.fresh => worker_loop 0 ctx
  | WorkerPC.parked count => worker_loop count ctx
  | WorkerPC.returned count => (WorkerPC.returned count, ctx, [])

/-! ## `sender_routine` (lines 54-64) -/

/-- Control state of a producer coroutine. `parked i`: suspended inside
`co_sleep(1)` on line 61 with loop variable `i`. -/
inductive SenderPC
  | fresh
  | parked (i : Nat)
  | returned
deriving DecidableEq, Repr

/-- Execution of `sender_routine` from the loop test `i < 100` on line 56 up
to the next `co_sleep(1)` or up to the return.  The bound is the literal of
the source. -/
def sender_loop (i : Nat) (ctx : WorkerContext) :
    SenderPC × WorkerContext × List Act :=
  if i < 100 then
    (SenderPC.parked i, { ctx with queue := ctx.queue ++ [Event.ofInt i] },
      [Act.push (Event.ofInt i), Act.sleep 1])
  else
    (SenderPC.returned, { ctx with done := true }, [Act.setDone])

/-- Resuming a producer: a fresh one starts with `i = 0`, a parked one
comes back from `co_sleep(1)`, runs `++i` and the loop test. -/
def sender_routine (pc : SenderPC) (ctx : WorkerContext) :
    SenderPC × WorkerContext × List Act :=
  match pc with
  | SenderPC.fresh => sender_loop 0 ctx
  | SenderPC.parked i => sender_loop (i + 1) ctx
  | SenderPC.returned => (SenderPC.returned, ctx, [])

/-! ## A worker pair under an arbitrary interleaving -/

/-- One context together with the consumer and the producer bound to it, and
the actions performed so far, oldest first, each with the routine that did it. -/
structure Pair where
  ctx : WorkerContext
  worker : WorkerPC
  sender : SenderPC
  log : List (Routine × Act)
deriving DecidableEq, Repr

/-- A fresh context with both coroutines created and not yet resumed. -/
def Pair.init : Pair :=
  { ctx := WorkerContext.new, worker := WorkerPC.fresh, sender := SenderPC.fresh, log := [] }

/-- The actions performed when routine `r` of the pair is given control. -/
def Pair.emitted (r : Routine) (p : Pair) : List Act :=
  match r with
  | Routine.worker_routine => (worker_routine p.worker p.ctx).2.2
  | Routine.sender_routine => (sender_routine p.sender p.ctx).2.2

/-- Routine `r` of the pair is given control and runs to its next
`co_sleep(1)` or to its return; what it did is appended to the log. -/
def Pair.step (r : Routine) (p : Pair) : Pair :=
  match r with
  | Routine.worker_routine =>
    { ctx := (worker_routine p.worker p.ctx).2.1,
      worker := (worker_routine p.worker p.ctx).1,
      sender := p.sender,
      log := p.log ++ (p.emitted Routine.worker_routine).map (fun a => (Routine.worker_routine, a)) }
  | Routine.sender_routine =>
    { ctx := (sender_routine p.sender p.ctx).2.1,
      worker := p.worker,
      sender := (sender_routine p.sender p.ctx).1,
      log := p.log ++ (p.emitted Routine.sender_routine).map (fun a => (Routine.sender_routine, a)) }

/-- An interleaving is the list of routines given control, in order. -/
def Pair.run (sched : List Routine) (p : Pair) : Pair :=
  sched.foldl (fun q r => q.step r) p

/-- The actions of routine `r` in a log. -/
def actsOf (r : Routine) (log : List (Routine × Act)) : List Act :=
  (log.filter (fun x => x.1 = r)).map Prod.snd

/-- The events pushed, in order. -/
def pushes (log : List (Routine × Act)) : List Event :=
  log.filterMap (fun x => match x.2 with | Act.push e => some e | _ => none)

/-- The events dequeued, in order. -/
def pops (log : List (Routine × Act)) : List Event :=
  log.filterMap (fun x => match x.2 with | Act.pop e => some e | _ => none)

/-- The lines printed, in order. -/
def prints (log : List (Routine × Act)) : List String :=
  log.filterMap (fun x => match x.2 with | Act.print s => some s | _ => none)

/-- The state of a pair without its log. -/
def Pair.core (p : Pair) : WorkerContext × WorkerPC × SenderPC :=
  (p.ctx, p.worker, p.sender)

/-- The running count held by a consumer. -/
def WorkerPC.count : WorkerPC → Nat
  | WorkerPC.fresh => 0
  | WorkerPC.parked c => c
  | WorkerPC.returned c => c

/-- Whether a consumer has returned. -/
def WorkerPC.isReturned : WorkerPC → Bool
  | WorkerPC.returned _ => true
  | _ => false

/-- Whether a producer has returned. -/
def SenderPC.isReturned : SenderPC → Bool
  | SenderPC.returned => true
  | _ => false

/-- The reference interleaving of one pair, `alternate n`: the consumer is
resumed, then the producer, and so on in turn, each of them `n` times. -/
def alternate : Nat → List Routine
  | 0 => []
  | n + 1 => Routine.worker_routine :: Routine.sender_routine :: alternate n

/-- The consumer is resumed once, then the producer runs alone to its
return (101 resumptions). -/
def senderFirst : List Routine :=
  Routine.worker_routine :: List.replicate 101 Routine.sender_routine

/-! ## The coroutine runtime (`libco/co_routine.h`)

The runtime is linked in, not part of the driver. It is modelled from the
contract the specification gives for it (section 4.1): `create` allocates a
coroutine without running it, `resume` runs a coroutine until it yields or
returns, `sleep` parks the running coroutine and makes it runnable again
later, and `eventloop` dispatches parked coroutines, first parked first
woken, until none is left. -/

/-- Lines printed among a list of actions. -/
def printed (acts : List Act) : List String :=
  acts.filterMap (fun a => match a with | Act.print s => some s | _ => none)

/-- The body a coroutine runs, with its control state. -/
inductive CoState
  | worker (pc : WorkerPC)
  | sender (pc : SenderPC)
deriving DecidableEq, Repr

/-- A coroutine of the runtime: `arg` is the index in `contexts` of the
`WorkerContext` whose address was passed to `co_create`. -/
structure Coroutine where
  arg : Nat
  state : CoState
deriving DecidableEq, Repr

/-- The control state of a coroutine that has been created and not yet
resumed: it will start its body from the top. -/
def Routine.entry : Routine → CoState
  | Routine.worker_routine => CoState.worker WorkerPC.fresh
  | Routine.sender_routine => CoState.sender SenderPC.fresh

/-- The calls `main` makes to the runtime and to the clock. -/
inductive Call
  | co_create (fn : Routine) (arg : Nat)
  | clock_now
  | co_resume (co : Nat)
  | co_eventloop
deriving DecidableEq, Repr

/-- The state of the process: the vector `contexts` of `main`, the
coroutines created so far (a handle `stCoRoutine_t*` is the position in this
list), the parked coroutines in the order in which they will be woken, the
calls made so far, and the lines written to standard output. -/
structure Runtime where
  contexts : List WorkerContext
  cos : List Coroutine
  timers : List Nat
  calls : List Call
  out : List String
deriving DecidableEq, Repr

/-- Modelled from the spec: `create(fn, arg)` of section 4.1, "allocates a
coroutine with its own stack, not yet runnable. Does not execute fn". The
handle returned is the position of the new coroutine. -/
def co_create (fn : Routine) (arg : Nat) (rt : Runtime) : Nat × Runtime :=
  (rt.cos.length,
    { rt with
      cos := rt.cos ++ [{ arg := arg, state := fn.entry }],
      calls := rt.calls ++ [Call.co_create fn arg] })

/-- Modelled from the spec: the transfer of control of section 4.1, "handle
runs until it yields or returns. On return the coroutine is terminated; on
yield it is parked", where the only yield of the two bodies is `sleep(1)`,
which "parks the current coroutine ... then makes it runnable again": a
coroutine that stops in `co_sleep(1)` joins the back of `timers`. -/
def Runtime.switchTo (h : Nat) (rt : Runtime) : Runtime :=
  match rt.cos[h]? with
  | none => rt
  | some co =>
    match rt.contexts[co.arg]? with
    | none => rt
    | some ctx =>
      match co.state with
      | CoState.worker pc =>
        { rt with
          contexts := rt.contexts.set co.arg (worker_routine pc ctx).2.1,
          cos := rt.cos.set h { arg := co.arg, state := CoState.worker (worker_routine pc ctx).1 },
          timers := if (worker_routine pc ctx).1.isReturned then rt.timers else rt.timers ++ [h],
          out := rt.out ++ printed (worker_routine pc ctx).2.2 }
      | CoState.sender pc =>
        { rt with
          contexts := rt.contexts.set co.arg (sender_routine pc ctx).2.1,
          cos := rt.cos.set h { arg := co.arg, state := CoState.sender (sender_routine pc ctx).1 },
          timers := if (sender_routine pc ctx).1.isReturned then rt.timers else rt.timers ++ [h],
          out := rt.out ++ printed (sender_routine pc ctx).2.2 }

/-- Modelled from the spec: `resume(handle)` of section 4.1, called from `main`. -/
def co_resume (h : Nat) (rt : Runtime) : Runtime :=
  Runtime.switchTo h { rt with calls := rt.calls ++ [Call.co_resume h] }

/-- Modelled from the spec: the dispatch loop of `eventloop()`, section 4.1:
"repeatedly dispatches ready coroutines ... until no coroutine is alive",
"FIFO among coroutines ready at the same tick". Every sleep of the program
lasts 1 ms, so coroutines wake in the order in which they went to sleep.
`fuel` bounds the number of dispatches; `none` means it ran out. -/
def Runtime.drain : Nat → Runtime → Option Runtime
  | 0, _ => none
  | fuel + 1, rt =>
    match rt.timers with
    | [] => some rt
    | h :: rest => Runtime.drain fuel (Runtime.switchTo h { rt with timers := rest })

/-- Modelled from the spec: `eventloop()` of section 4.1, "Returns when all
coroutines have terminated". -/
def co_eventloop (fuel : Nat) (rt : Runtime) : Option Runtime :=
  Runtime.drain fuel { rt with calls := rt.calls ++ [Call.co_eventloop] }

/-- A reading of `std::chrono::high_resolution_clock::now()`. -/
def clock_now (rt : Runtime) : Runtime :=
  { rt with calls := rt.calls ++ [Call.clock_now] }

/-! ## `main` (lines 66-118) -/

/-- The options after `options.parse(argc, argv)`, with the defaults of lines
69-75. `worker` is a natural number: with a negative value the constructor of
`contexts` throws before any call to the runtime. -/
structure Config where
  size : Int := 16
  etype : Int := 0
  worker : Nat := 100
  event : Int := 100
  queue : Int := 16
  csv : Bool := false
  verbose : Bool := false
deriving DecidableEq, Repr

/-- The loop of lines 85-89 (`fn = worker_routine`) and of lines 98-102
(`fn = sender_routine`): create one coroutine per context, in index order,
and `push_back` each handle. The accumulator is the vector of handles and the
process state. -/
def create_all (fn : Routine) (num_workers : Nat) (rt : Runtime) : List Nat × Runtime :=
  (List.range num_workers).foldl
    (fun acc i => (acc.1 ++ [(co_create fn i acc.2).1], (co_create fn i acc.2).2))
    ([], rt)

/-- The loop of lines 93-95 and of lines 104-106: `co_resume(handles[i])`
for `i` from 0 to `num_workers - 1`. -/
def resume_all (handles : List Nat) (num_workers : Nat) (rt : Runtime) : Runtime :=
  (List.range num_workers).foldl (fun acc i => co_resume (handles.getD i 0) acc) rt

/-- The loop of lines 108-110: `num_workers` calls of `co_eventloop`. -/
def eventloop_all (fuel : Nat) (num_workers : Nat) (rt : Runtime) : Option Runtime :=
  (List.range num_workers).foldlM (fun acc _ => co_eventloop fuel acc) rt

/-- The line written on line 115; `elapsed` is the text of `duration.count()`. -/
def total_line (elapsed : String) : String :=
  "Total time: " ++ elapsed ++ " seconds"

/-- The function `main`. `num_events` is read on line 80 and not used again,
and the option `csv` is never read. The result is the final process state,
whose field `out` is the standard output, or `none` when an event loop ran
out of fuel. -/
def main (cfg : Config) (fuel : Nat) (elapsed : String) : Option Runtime :=
  let num_workers := cfg.worker
  let _num_events := cfg.event
  let rt0 : Runtime :=
    { contexts := List.replicate num_workers WorkerContext.new,
      cos := [], timers := [], calls := [], out := [] }
  let created := create_all Routine.worker_routine num_workers rt0
  let workers := created.1
  let rt1 := clock_now created.2
  let rt2 := resume_all workers num_workers rt1
  let created2 := create_all Routine.sender_routine num_workers rt2
  let senders := created2.1
  let rt3 := resume_all senders num_workers created2.2
  match eventloop_all fuel num_workers rt3 with
  | none => none
  | some rt4 =>
    let rt5 := clock_now rt4
    some { rt5 with out := rt5.out ++ [total_line elapsed] }

/-! ## Vocabulary for the states of the whole process -/

/-- The list of length `n` whose entry `i` is `f i` for `i < j` and `g i`
for `i ≥ j`: a vector in which a loop has already updated the first `j` slots. -/
def sweepList {α : Type} (n j : Nat) (f g : Nat → α) : List α :=
  (List.range n).map (fun i => if i < j then f i else g i)

/-- The consumer bound to `contexts[i]`, in control state `pc`. -/
def wco (pc : WorkerPC) (i : Nat) : Coroutine :=
  { arg := i, state := CoState.worker pc }

/-- The producer bound to `contexts[i]`, in control state `pc`. -/
def sco (pc : SenderPC) (i : Nat) : Coroutine :=
  { arg := i, state := CoState.sender pc }

/-- The process state between two rounds of the event loop: every queue
holds the single value `r`, every consumer is parked with `count = r`, every
producer is parked with `i = r`, and the timers hold the `n` consumers
followed by the `n` producers. Nothing has been printed. -/
def roundState (n r : Nat) (c : List Call) : Runtime :=
  { contexts := List.replicate n { queue := [Event.ofInt (r : Int)], done := false },
    cos := (List.range n).map (wco (WorkerPC.parked r))
      ++ (List.range n).map (sco (SenderPC.parked r)),
    timers := List.range n ++ (List.range n).map (fun i => n + i),
    calls := c, out := [] }

/-- The process state when the event loop has nothing left to wake: every
queue is empty with `done` set, every coroutine has returned, and each of the
`n` consumers has printed `Processed 100 events.`. -/
def finalState (n : Nat) (c : List Call) : Runtime :=
  { contexts := List.replicate n { queue := [], done := true },
    cos := (List.range n).map (wco (WorkerPC.returned 100))
      ++ (List.range n).map (sco SenderPC.returned),
    timers := [], calls := c, out := List.replicate n (report 100) }

/-- The calls `main` makes between its two clock readings when it runs with
`n` workers, in order (lines 93-110). -/
def timedCalls (n : Nat) : List Call :=
  (List.range n).map (fun i => Call.co_resume i)
    ++ (List.range n).map (fun i => Call.co_create Routine.sender_routine i)
    ++ (List.range n).map (fun i => Call.co_resume (n + i))
    ++ List.replicate n Call.co_eventloop

/-- The calls of a complete run of `main` with `n` workers, in order. -/
def mainCalls (n : Nat) : List Call :=
  (List.range n).map (fun i => Call.co_create Routine.worker_routine i)
    ++ [Call.clock_now] ++ timedCalls n ++ [Call.clock_now]

/-- The handle resumed by a call, when the call is a `co_resume`. -/
def Call.resumed : Call → Option Nat
  | Call.co_resume h => some h
  | _ => none

/-- The routine and context index of a call, when the call is a `co_create`. -/
def Call.created : Call → Option (Routine × Nat)
  | Call.co_create fn arg => some (fn, arg)
  | _ => none

/-! ## Specification vocabulary for a pair -/

/-- Number of events a producer in control state `pc` has pushed. -/
def SenderPC.sent : SenderPC → Nat
  | SenderPC.fresh => 0
  | SenderPC.parked i => i + 1
  | SenderPC.returned => 100

/-- The events with tag `INT` and values `0, 1, ..., n-1`, in that order. -/
def intEvents (n : Nat) : List Event :=
  (List.range n).map (fun (k : Nat) => Event.ofInt (k : Int))

/-- The actions of a producer that has pushed `n` events: for each value
`k < n`, in order, the push of `k` followed by `co_sleep(1)`. -/
def pushSleep (n : Nat) : List Act :=
  (List.range n).flatMap (fun (k : Nat) => [Act.push (Event.ofInt (k : Int)), Act.sleep 1])

/-- What holds of a worker pair in every state reachable from `Pair.init`. -/
structure Inv (p : Pair) : Prop where
  pushed : pushes p.log = intEvents p.sender.sent
  bound : p.sender.sent ≤ 100
  done_eq : p.ctx.done = p.sender.isReturned
  fifo : pops p.log ++ p.ctx.queue = pushes p.log
  count : (pops p.log).length = p.worker.count
  exit_done : p.worker.isReturned = true → p.ctx.done = true
  printed : prints p.log = if p.worker.isReturned then [report p.worker.count] else []
  senderActs : actsOf Routine.sender_routine p.log =
    pushSleep p.sender.sent ++ if p.sender.isReturned then [Act.setDone] else []

/-! # Theorems -/

set_option maxRecDepth 100000

/-! ## Lemmas on the pair machine -/

theorem run_nil (p : Pair) : Pair.run [] p = p := rfl

theorem run_cons (r : Routine) (sched : List Routine) (p : Pair) :
    Pair.run (r :: sched) p = Pair.run sched (p.step r) := rfl

theorem run_append (s₁ s₂ : List Routine) (p : Pair) :
    Pair.run (s₁ ++ s₂) p = Pair.run s₂ (Pair.run s₁ p) := by
  simp [Pair.run, List.foldl_append]

theorem run_snoc (sched : List Routine) (r : Routine) (p : Pair) :
    Pair.run (sched ++ [r]) p = (Pair.run sched p).step r := by
  simp [run_append, run_cons, run_nil]

theorem pushes_nil : pushes [] = [] := rfl

theorem pops_nil : pops [] = [] := rfl

theorem prints_nil : prints [] = [] := rfl

theorem actsOf_nil (r : Routine) : actsOf r [] = [] := rfl

theorem pushes_append (a b : List (Routine × Act)) : pushes (a ++ b) = pushes a ++ pushes b := by
  simp [pushes]

theorem pops_append (a b : List (Routine × Act)) : pops (a ++ b) = pops a ++ pops b := by
  simp [pops]

theorem prints_append (a b : List (Routine × Act)) : prints (a ++ b) = prints a ++ prints b := by
  simp [prints]

theorem actsOf_append (r : Routine) (a b : List (Routine × Act)) :
    actsOf r (a ++ b) = actsOf r a ++ actsOf r b := by
  simp [actsOf]

theorem pushes_cons (x : Routine × Act) (l : List (Routine × Act)) :
    pushes (x :: l) = (match x.2 with | Act.push e => [e] | _ => []) ++ pushes l := by
  rcases x with ⟨r, a⟩
  cases a <;> simp [pushes]

theorem pops_cons (x : Routine × Act) (l : List (Routine × Act)) :
    pops (x :: l) = (match x.2 with | Act.pop e => [e] | _ => []) ++ pops l := by
  rcases x with ⟨r, a⟩
  cases a <;> simp [pops]

theorem prints_cons (x : Routine × Act) (l : List (Routine × Act)) :
    prints (x :: l) = (match x.2 with | Act.print s => [s] | _ => []) ++ prints l := by
  rcases x with ⟨r, a⟩
  cases a <;> simp [prints]

theorem actsOf_cons (r : Routine) (x : Routine × Act) (l : List (Routine × Act)) :
    actsOf r (x :: l) = (if x.1 = r then [x.2] else []) ++ actsOf r l := by
  by_cases h : x.1 = r <;> simp [actsOf, h]

@[simp] theorem sent_fresh : SenderPC.fresh.sent = 0 := rfl

@[simp] theorem sent_parked (i : Nat) : (SenderPC.parked i).sent = i + 1 := rfl

@[simp] theorem sent_returned : SenderPC.returned.sent = 100 := rfl

@[simp] theorem sender_isReturned_fresh : SenderPC.fresh.isReturned = false := rfl

@[simp] theorem sender_isReturned_parked (i : Nat) : (SenderPC.parked i).isReturned = false := rfl

@[simp] theorem sender_isReturned_returned : SenderPC.returned.isReturned = true := rfl

@[simp] theorem worker_isReturned_fresh : WorkerPC.fresh.isReturned = false := rfl

@[simp] theorem worker_isReturned_parked (c : Nat) : (WorkerPC.parked c).isReturned = false := rfl

@[simp] theorem worker_isReturned_returned (c : Nat) : (WorkerPC.returned c).isReturned = true := rfl

@[simp] theorem count_fresh : WorkerPC.fresh.count = 0 := rfl

@[simp] theorem count_parked (c : Nat) : (WorkerPC.parked c).count = c := rfl

@[simp] theorem count_returned (c : Nat) : (WorkerPC.returned c).count = c := rfl

theorem inv_init : Inv Pair.init := by
  constructor <;> simp [Pair.init, WorkerContext.new, pushes, pops, prints, actsOf,
    SenderPC.sent, SenderPC.isReturned, WorkerPC.isReturned, WorkerPC.count, pushSleep, intEvents]

theorem pushSleep_succ (n : Nat) :
    pushSleep (n + 1) = pushSleep n ++ [Act.push (Event.ofInt (n : Int)), Act.sleep 1] := by
  simp [pushSleep, List.range_succ, List.flatMap_append]

theorem intEvents_succ (n : Nat) :
    intEvents (n + 1) = intEvents n ++ [Event.ofInt (n : Int)] := by
  simp [intEvents, List.range_succ]

theorem intEvents_length (n : Nat) : (intEvents n).length = n := by
  simp [intEvents]

theorem ofInt_not_sentinel (k : Nat) :
    ¬ ((Event.ofInt (k : Int)).type = EventType.INT ∧ (Event.ofInt (k : Int)).int_val = -1) := by
  simp [Event.ofInt]

/-- In a reachable state the front of the queue is never the sentinel. -/
theorem Inv.head_not_sentinel {p : Pair} (h : Inv p) {e : Event} {rest : List Event}
    (hq : p.ctx.queue = e :: rest) : ¬ (e.type = EventType.INT ∧ e.int_val = -1) := by
  have hm : e ∈ pushes p.log := by
    rw [← h.fifo, hq]
    simp
  rw [h.pushed, intEvents] at hm
  obtain ⟨k, -, rfl⟩ := List.mem_map.1 hm
  exact ofInt_not_sentinel k

theorem worker_loop_inv {ctx : WorkerContext} {s : SenderPC} {log : List (Routine × Act)}
    {w : WorkerPC} (hw : w.isReturned = false)
    (h : Inv ⟨ctx, w, s, log⟩) :
    Inv ⟨(worker_loop w.count ctx).2.1, (worker_loop w.count ctx).1, s,
      log ++ (worker_loop w.count ctx).2.2.map (fun a => (Routine.worker_routine, a))⟩ := by
  have hs := fun e rest => @Inv.head_not_sentinel _ h e rest
  obtain ⟨h1, h2, h3, h4, h5, h6, h7, h8⟩ := h
  rcases ctx with ⟨q, d⟩
  simp only at h1 h2 h3 h4 h5 h6 h7 h8 hs
  simp only [hw] at h7
  unfold worker_loop
  by_cases hd : d = true
  · subst hd
    constructor <;>
      simp_all [pushes_append, pops_append, prints_append, actsOf_append, pushes_cons,
        pops_cons, prints_cons, actsOf_cons, pushes_nil, pops_nil, prints_nil, actsOf_nil,
        WorkerPC.isReturned, WorkerPC.count]
  · simp only [Bool.not_eq_true] at hd
    subst hd
    cases q with
    | nil =>
      constructor <;>
        simp_all [pushes_append, pops_append, prints_append, actsOf_append, pushes_cons,
          pops_cons, prints_cons, actsOf_cons, pushes_nil, pops_nil, prints_nil, actsOf_nil,
          WorkerPC.isReturned, WorkerPC.count]
    | cons e rest =>
      have hne := hs e rest rfl
      simp only [Bool.false_eq_true, if_false, hne]
      constructor <;>
        simp_all [pushes_append, pops_append, prints_append, actsOf_append, pushes_cons,
          pops_cons, prints_cons, actsOf_cons, pushes_nil, pops_nil, prints_nil, actsOf_nil,
          WorkerPC.isReturned, WorkerPC.count]

theorem inv_step_worker {p : Pair} (h : Inv p) : Inv (p.step Routine.worker_routine) := by
  rcases p with ⟨ctx, w, s, log⟩
  cases w with
  | fresh => exact worker_loop_inv (w := WorkerPC.fresh) rfl h
  | parked c => exact worker_loop_inv (w := WorkerPC.parked c) rfl h
  | returned c => simpa [Pair.step, Pair.emitted, worker_routine] using h

theorem sender_loop_inv {ctx : WorkerContext} {w : WorkerPC} {log : List (Routine × Act)}
    {s : SenderPC} (i : Nat) (hi : i = s.sent) (hs : s.isReturned = false)
    (h : Inv ⟨ctx, w, s, log⟩) :
    Inv ⟨(sender_loop i ctx).2.1, w, (sender_loop i ctx).1,
      log ++ (sender_loop i ctx).2.2.map (fun a => (Routine.sender_routine, a))⟩ := by
  obtain ⟨h1, h2, h3, h4, h5, h6, h7, h8⟩ := h
  rcases ctx with ⟨q, d⟩
  simp only at h1 h2 h3 h4 h5 h6 h7 h8
  subst hi
  unfold sender_loop
  by_cases hlt : s.sent < 100
  · simp only [hlt, if_true]
    constructor
    · simp [pushes_append, pushes_cons, pushes_nil, h1, intEvents_succ]
    · simp only [sent_parked]
      omega
    · simp [h3, hs]
    · simp [pushes_append, pushes_cons, pushes_nil, pops_append, pops_cons, pops_nil, ← h4]
    · simpa [pops_append, pops_cons, pops_nil] using h5
    · simpa using h6
    · simpa [prints_append, prints_cons, prints_nil] using h7
    · simp [actsOf_append, actsOf_cons, actsOf_nil, h8, hs, pushSleep_succ]
  · have h100 : s.sent = 100 := by omega
    simp only [hlt, if_false]
    constructor
    · simpa [pushes_append, pushes_cons, pushes_nil, h100] using h1
    · simp
    · simp
    · simpa [pushes_append, pushes_cons, pushes_nil, pops_append, pops_cons, pops_nil] using h4
    · simpa [pops_append, pops_cons, pops_nil] using h5
    · simp
    · simpa [prints_append, prints_cons, prints_nil] using h7
    · simp [actsOf_append, actsOf_cons, actsOf_nil, h8, hs, h100]

theorem inv_step_sender {p : Pair} (h : Inv p) : Inv (p.step Routine.sender_routine) := by
  rcases p with ⟨ctx, w, s, log⟩
  cases s with
  | fresh => exact sender_loop_inv (s := SenderPC.fresh) 0 rfl rfl h
  | parked i => exact sender_loop_inv (s := SenderPC.parked i) (i + 1) rfl rfl h
  | returned => simpa [Pair.step, Pair.emitted, sender_routine] using h

theorem inv_step {p : Pair} (h : Inv p) (r : Routine) : Inv (p.step r) := by
  cases r
  · exact inv_step_worker h
  · exact inv_step_sender h

theorem inv_run (sched : List Routine) {p : Pair} (h : Inv p) : Inv (Pair.run sched p) := by
  induction sched generalizing p with
  | nil => exact h
  | cons r rest ih => exact ih (inv_step h r)

/-- Every state reachable from the initial pair satisfies the invariant. -/
theorem inv_reachable (sched : List Routine) : Inv (Pair.run sched Pair.init) :=
  inv_run sched inv_init

/-- The `done` flag is never cleared by a step, from any state. -/
theorem step_done_mono (r : Routine) (p : Pair) (h : p.ctx.done = true) :
    (p.step r).ctx.done = true := by
  rcases p with ⟨⟨q, d⟩, w, s, log⟩
  simp only at h
  subst h
  cases r
  · cases w <;> simp [Pair.step, worker_routine, worker_loop]
  · cases s <;> simp [Pair.step, sender_routine, sender_loop]
    all_goals split <;> simp

theorem run_done_mono (sched : List Routine) (p : Pair) (h : p.ctx.done = true) :
    (Pair.run sched p).ctx.done = true := by
  induction sched generalizing p with
  | nil => exact h
  | cons r rest ih => exact ih _ (step_done_mono r p h)

/-- A list that starts the sequence `0, 1, ..., n-1` is itself such a sequence. -/
theorem intEvents_of_append {n : Nat} {a b : List Event} (h : a ++ b = intEvents n) :
    a = intEvents a.length := by
  have hlen : a.length ≤ n := by
    have := congrArg List.length h
    simp [intEvents_length] at this
    omega
  have : a = (intEvents n).take a.length := by
    rw [← h]
    simp
  rw [this]
  simp [intEvents, ← List.map_take, List.take_range, Nat.min_eq_left hlen]

theorem intEvents_getElem? {n k : Nat} (h : k < n) :
    (intEvents n)[k]? = some (Event.ofInt (k : Int)) := by
  simp [intEvents, List.getElem?_range h]

theorem intEvents_nodup (n : Nat) : (intEvents n).Nodup := by
  unfold intEvents
  refine List.Nodup.map ?_ (List.nodup_range n)
  intro a b hab
  simpa [Event.ofInt] using hab

/-- A consumer that goes from running to returned in one resumption either
dequeued the sentinel in that resumption or saw `done` set. -/
theorem worker_exit_cause (pc : WorkerPC) (ctx : WorkerContext)
    (h0 : pc.isReturned = false) (h1 : (worker_routine pc ctx).1.isReturned = true) :
    (∃ e, Act.pop e ∈ (worker_routine pc ctx).2.2 ∧ e.type = EventType.INT ∧ e.int_val = -1)
      ∨ ctx.done = true := by
  rcases ctx with ⟨q, d⟩
  cases d
  · left
    cases pc <;> cases q <;>
      simp_all [worker_routine, worker_loop] <;>
      split at h1 <;> simp_all
  · right
    rfl

/-! ## Single resumptions of the two bodies -/

theorem worker_pops (r : Nat) :
    worker_routine (WorkerPC.parked r) { queue := [Event.ofInt (r : Int)], done := false }
      = (WorkerPC.parked (r + 1), { queue := [], done := false },
          [Act.pop (Event.ofInt (r : Int)), Act.sleep 1]) := by
  have h := ofInt_not_sentinel r
  simp only [worker_routine, worker_loop, Bool.false_eq_true, if_false, h]

theorem sender_pushes (r : Nat) (hr : r + 1 < 100) :
    sender_routine (SenderPC.parked r) { queue := [], done := false }
      = (SenderPC.parked (r + 1), { queue := [Event.ofInt ((r + 1 : Nat) : Int)], done := false },
          [Act.push (Event.ofInt ((r + 1 : Nat) : Int)), Act.sleep 1]) := by
  simp only [sender_routine, sender_loop, hr, if_true, List.nil_append]

theorem sender_finishes :
    sender_routine (SenderPC.parked 99) { queue := [], done := false }
      = (SenderPC.returned, { queue := [], done := true }, [Act.setDone]) := by
  simp [sender_routine, sender_loop]

theorem worker_finishes :
    worker_routine (WorkerPC.parked 100) { queue := [], done := true }
      = (WorkerPC.returned 100, { queue := [], done := true }, [Act.print (report 100)]) := by
  simp [worker_routine, worker_loop]

theorem worker_starts :
    worker_routine WorkerPC.fresh WorkerContext.new
      = (WorkerPC.parked 0, WorkerContext.new, [Act.sleep 1]) := by
  simp [worker_routine, worker_loop, WorkerContext.new]

theorem sender_starts :
    sender_routine SenderPC.fresh WorkerContext.new
      = (SenderPC.parked 0, { queue := [Event.ofInt ((0 : Nat) : Int)], done := false },
          [Act.push (Event.ofInt ((0 : Nat) : Int)), Act.sleep 1]) := by
  simp [sender_routine, sender_loop, WorkerContext.new]

/-! ## The alternating interleaving of one pair -/

theorem alternate_succ (n : Nat) :
    alternate (n + 1) = alternate n ++ [Routine.worker_routine, Routine.sender_routine] := by
  induction n with
  | zero => rfl
  | succ k ih =>
    show _ :: _ :: alternate (k + 1) = _ :: _ :: alternate k ++ _
    rw [ih]
    rfl

theorem run_alternate_succ (n : Nat) :
    Pair.run (alternate (n + 1)) Pair.init
      = ((Pair.run (alternate n) Pair.init).step Routine.worker_routine).step
          Routine.sender_routine := by
  rw [alternate_succ, run_append]
  rfl

/-- After `k + 1` rounds of the alternating interleaving, `k < 100`, the queue
holds the single value `k` and both coroutines are parked with `k`. -/
theorem alternate_core (k : Nat) (hk : k < 100) :
    (Pair.run (alternate (k + 1)) Pair.init).core
      = ({ queue := [Event.ofInt (k : Int)], done := false },
          WorkerPC.parked k, SenderPC.parked k) := by
  induction k with
  | zero => decide
  | succ j ih =>
    have h := ih (by omega)
    rw [run_alternate_succ]
    generalize Pair.run (alternate (j + 1)) Pair.init = p at h
    rcases p with ⟨ctx, w, s, log⟩
    simp only [Pair.core, Prod.mk.injEq] at h
    obtain ⟨rfl, rfl, rfl⟩ := h
    simp only [Pair.core, Pair.step, worker_pops, sender_pushes j (by omega)]

theorem alternate_core_101 :
    (Pair.run (alternate 101) Pair.init).core
      = ({ queue := [], done := true }, WorkerPC.parked 100, SenderPC.returned) := by
  decide

/-- From round 102 on both coroutines have returned and nothing changes. -/
theorem alternate_core_late (m : Nat) :
    (Pair.run (alternate (102 + m)) Pair.init).core
      = ({ queue := [], done := true }, WorkerPC.returned 100, SenderPC.returned) := by
  induction m with
  | zero => decide
  | succ j ih =>
    rw [show 102 + (j + 1) = (102 + j) + 1 from rfl, run_alternate_succ]
    generalize Pair.run (alternate (102 + j)) Pair.init = p at ih
    rcases p with ⟨ctx, w, s, log⟩
    simp only [Pair.core, Prod.mk.injEq] at ih
    obtain ⟨rfl, rfl, rfl⟩ := ih
    rfl

/-- Under the alternating interleaving the consumer leaves its loop only
with `done` set and the queue empty. -/
theorem alternate_exit (n : Nat)
    (h0 : (Pair.run (alternate n) Pair.init).worker.isReturned = false)
    (h1 : ((Pair.run (alternate n) Pair.init).step Routine.worker_routine).worker.isReturned
      = true) :
    (Pair.run (alternate n) Pair.init).ctx.done = true
      ∧ (Pair.run (alternate n) Pair.init).ctx.queue = [] := by
  rcases Nat.lt_or_ge n 102 with hlt | hge
  · rcases Nat.lt_or_ge n 101 with hlt2 | hge2
    · cases n with
      | zero => exact absurd h1 (by decide)
      | succ k =>
        have h := alternate_core k (by omega)
        generalize Pair.run (alternate (k + 1)) Pair.init = p at h h0 h1
        rcases p with ⟨ctx, w, s, log⟩
        simp only [Pair.core, Prod.mk.injEq] at h
        obtain ⟨rfl, rfl, rfl⟩ := h
        simp [Pair.step, worker_pops] at h1
    · have hn : n = 101 := by omega
      subst hn
      have h := alternate_core_101
      generalize Pair.run (alternate 101) Pair.init = p at h
      rcases p with ⟨ctx, w, s, log⟩
      simp only [Pair.core, Prod.mk.injEq] at h
      obtain ⟨rfl, rfl, rfl⟩ := h
      exact ⟨rfl, rfl⟩
  · obtain ⟨m, rfl⟩ := Nat.exists_eq_add_of_le hge
    have h := alternate_core_late m
    generalize Pair.run (alternate (102 + m)) Pair.init = p at h h0
    rcases p with ⟨ctx, w, s, log⟩
    simp only [Pair.core, Prod.mk.injEq] at h
    obtain ⟨rfl, rfl, rfl⟩ := h
    simp at h0

/-! ## Lemmas on the whole process -/

theorem sweepList_length {α : Type} (n j : Nat) (f g : Nat → α) :
    (sweepList n j f g).length = n := by
  simp [sweepList]

theorem sweepList_getElem? {α : Type} {n j : Nat} (f g : Nat → α) (hj : j < n) :
    (sweepList n j f g)[j]? = some (g j) := by
  simp [sweepList, List.getElem?_range hj]

theorem sweepList_set {α : Type} {n j : Nat} (f g : Nat → α) (hj : j < n) :
    (sweepList n j f g).set j (f j) = sweepList n (j + 1) f g := by
  apply List.ext_getElem?
  intro i
  by_cases hi : i < n
  · simp only [sweepList, List.getElem?_set, List.length_map, List.length_range,
      List.getElem?_map, List.getElem?_range hi, Option.map_some']
    by_cases hij : j = i
    · subst hij
      simp [hj]
    · have : (i < j + 1) = (i < j) := by
        apply propext
        omega
      simp [hij, this]
  · have h1 : (sweepList n (j + 1) f g).length ≤ i := by
      rw [sweepList_length]; omega
    have h2 : ((sweepList n j f g).set j (f j)).length ≤ i := by
      rw [List.length_set, sweepList_length]; omega
    rw [List.getElem?_eq_none h1, List.getElem?_eq_none h2]

theorem sweepList_zero {α : Type} (n : Nat) (f g : Nat → α) :
    sweepList n 0 f g = (List.range n).map g := by
  simp [sweepList]

theorem sweepList_full {α : Type} (n : Nat) (f g : Nat → α) :
    sweepList n n f g = (List.range n).map f := by
  unfold sweepList
  apply List.map_congr_left
  intro i hi
  simp [List.mem_range.1 hi]

theorem map_const_range {α : Type} (n : Nat) (a : α) :
    (List.range n).map (fun _ => a) = List.replicate n a := by
  induction n with
  | zero => rfl
  | succ k ih => rw [List.range_succ, List.map_append, ih, List.replicate_succ']; rfl

theorem foldl_family {β : Type} (G : Nat → β) (f : β → Nat → β) (n : Nat)
    (h : ∀ j, j < n → f (G j) j = G (j + 1)) :
    (List.range n).foldl f (G 0) = G n := by
  induction n with
  | zero => rfl
  | succ k ih =>
    rw [List.range_succ, List.foldl_append, ih (fun j hj => h j (by omega))]
    simp [h k (by omega)]

theorem drain_family (n : Nat) : ∀ (G : Nat → Runtime) (fuel : Nat),
    (∀ j, j < n → ∃ hd tl, (G j).timers = hd :: tl
        ∧ Runtime.switchTo hd { G j with timers := tl } = G (j + 1)) →
    Runtime.drain (fuel + n) (G 0) = Runtime.drain fuel (G n) := by
  induction n with
  | zero => intro G fuel _; rfl
  | succ k ih =>
    intro G fuel h
    obtain ⟨hd, tl, ht, hs⟩ := h 0 (by omega)
    have := ih (fun j => G (j + 1)) fuel (fun j hj => h (j + 1) (by omega))
    rw [← this]
    show Runtime.drain ((fuel + k) + 1) (G 0) = _
    rw [Runtime.drain, ht]
    simp only
    rw [hs]

theorem switchTo_worker (rt : Runtime) {h k : Nat} {pc : WorkerPC} {ctx : WorkerContext}
    (hc : rt.cos[h]? = some (wco pc k)) (hx : rt.contexts[k]? = some ctx) :
    Runtime.switchTo h rt =
      { contexts := rt.contexts.set k (worker_routine pc ctx).2.1,
        cos := rt.cos.set h (wco (worker_routine pc ctx).1 k),
        timers := if (worker_routine pc ctx).1.isReturned then rt.timers else rt.timers ++ [h],
        calls := rt.calls,
        out := rt.out ++ printed (worker_routine pc ctx).2.2 } := by
  simp [Runtime.switchTo, hc, wco, hx]

theorem switchTo_sender (rt : Runtime) {h k : Nat} {pc : SenderPC} {ctx : WorkerContext}
    (hc : rt.cos[h]? = some (sco pc k)) (hx : rt.contexts[k]? = some ctx) :
    Runtime.switchTo h rt =
      { contexts := rt.contexts.set k (sender_routine pc ctx).2.1,
        cos := rt.cos.set h (sco (sender_routine pc ctx).1 k),
        timers := if (sender_routine pc ctx).1.isReturned then rt.timers else rt.timers ++ [h],
        calls := rt.calls,
        out := rt.out ++ printed (sender_routine pc ctx).2.2 } := by
  simp [Runtime.switchTo, hc, sco, hx]

/-- Dispatching consumer `j` when the consumers below `j` have already taken
the same step. -/
theorem switchTo_worker_sweep {n j : Nat} (hj : j < n) {a b : WorkerContext} {wa wb : WorkerPC}
    {acts : List Act} (hres : worker_routine wa a = (wb, b, acts))
    (S : List Coroutine) (t : List Nat) (c : List Call) (o : List String) :
    Runtime.switchTo j
        { contexts := sweepList n j (fun _ => b) (fun _ => a),
          cos := sweepList n j (wco wb) (wco wa) ++ S,
          timers := t, calls := c, out := o }
      = { contexts := sweepList n (j + 1) (fun _ => b) (fun _ => a),
          cos := sweepList n (j + 1) (wco wb) (wco wa) ++ S,
          timers := if wb.isReturned then t else t ++ [j],
          calls := c, out := o ++ printed acts } := by
  have hc : (sweepList n j (wco wb) (wco wa) ++ S)[j]? = some (wco wa j) := by
    rw [List.getElem?_append_left (by rw [sweepList_length]; exact hj)]
    exact sweepList_getElem? _ _ hj
  have hx : (sweepList n j (fun _ => b) (fun _ => a))[j]? = some a :=
    sweepList_getElem? _ _ hj
  rw [switchTo_worker (Runtime.mk (sweepList n j (fun _ => b) (fun _ => a))
    (sweepList n j (wco wb) (wco wa) ++ S) t c o) hc hx, hres]
  simp only
  rw [List.set_append_left _ _ (by rw [sweepList_length]; exact hj),
    sweepList_set (wco wb) (wco wa) hj, sweepList_set (fun _ => b) (fun _ => a) hj]

/-- Dispatching producer `j`, whose handle is `n + j`, when the producers
below `j` have already taken the same step. -/
theorem switchTo_sender_sweep {n j : Nat} (hj : j < n) {a b : WorkerContext} {sa sb : SenderPC}
    {acts : List Act} (hres : sender_routine sa a = (sb, b, acts))
    (W : List Coroutine) (hW : W.length = n) (t : List Nat) (c : List Call) (o : List String) :
    Runtime.switchTo (n + j)
        { contexts := sweepList n j (fun _ => b) (fun _ => a),
          cos := W ++ sweepList n j (sco sb) (sco sa),
          timers := t, calls := c, out := o }
      = { contexts := sweepList n (j + 1) (fun _ => b) (fun _ => a),
          cos := W ++ sweepList n (j + 1) (sco sb) (sco sa),
          timers := if sb.isReturned then t else t ++ [n + j],
          calls := c, out := o ++ printed acts } := by
  have hc : (W ++ sweepList n j (sco sb) (sco sa))[n + j]? = some (sco sa j) := by
    rw [List.getElem?_append_right (by omega), hW, Nat.add_sub_cancel_left]
    exact sweepList_getElem? _ _ hj
  have hx : (sweepList n j (fun _ => b) (fun _ => a))[j]? = some a :=
    sweepList_getElem? _ _ hj
  rw [switchTo_sender (Runtime.mk (sweepList n j (fun _ => b) (fun _ => a))
    (W ++ sweepList n j (sco sb) (sco sa)) t c o) hc hx, hres]
  simp only
  rw [List.set_append_right _ _ (by omega), hW, Nat.add_sub_cancel_left,
    sweepList_set (sco sb) (sco sa) hj, sweepList_set (fun _ => b) (fun _ => a) hj]

theorem range'_step (n j : Nat) (hj : j < n) :
    List.range' j (n - j) = j :: List.range' (j + 1) (n - (j + 1)) := by
  have : n - j = (n - (j + 1)) + 1 := by omega
  rw [this, List.range'_succ]

theorem flatten_replicate_succ {α : Type} (j : Nat) (l : List α) :
    (List.replicate (j + 1) l).flatten = (List.replicate j l).flatten ++ l := by
  rw [List.replicate_succ', List.flatten_append]
  simp

/-- The event loop wakes the `n` consumers, which sit at the front of the
timer list in index order and all take the same step. -/
theorem drain_worker_sweep {n : Nat} {a b : WorkerContext} {wa wb : WorkerPC}
    {acts : List Act} (hres : worker_routine wa a = (wb, b, acts))
    (S : List Coroutine) (rest : List Nat) (c : List Call) (o : List String) (fuel : Nat) :
    Runtime.drain (fuel + n)
        { contexts := List.replicate n a, cos := (List.range n).map (wco wa) ++ S,
          timers := List.range n ++ rest, calls := c, out := o }
      = Runtime.drain fuel
        { contexts := List.replicate n b, cos := (List.range n).map (wco wb) ++ S,
          timers := rest ++ (if wb.isReturned then [] else List.range n),
          calls := c, out := o ++ (List.replicate n (printed acts)).flatten } := by
  have key := drain_family n (fun j =>
    { contexts := sweepList n j (fun _ => b) (fun _ => a),
      cos := sweepList n j (wco wb) (wco wa) ++ S,
      timers := List.range' j (n - j) ++ (rest ++ if wb.isReturned then [] else List.range j),
      calls := c, out := o ++ (List.replicate j (printed acts)).flatten }) fuel (by
    intro j hj
    refine ⟨j, List.range' (j + 1) (n - (j + 1))
      ++ (rest ++ if wb.isReturned then [] else List.range j), ?_, ?_⟩
    · simp only [range'_step n j hj, List.cons_append]
    · simp only
      rw [switchTo_worker_sweep hj hres, flatten_replicate_succ]
      cases wb.isReturned <;> simp [List.range_succ])
  simp only [sweepList_zero, sweepList_full, map_const_range, Nat.sub_zero, Nat.sub_self,
    List.range'_zero, List.nil_append, List.replicate_zero, List.flatten_nil, List.append_nil,
    List.range_zero, ite_self, ← List.range_eq_range'] at key
  exact key

/-- The event loop wakes the `n` producers, which sit at the front of the
timer list in index order and all take the same step. -/
theorem drain_sender_sweep {n : Nat} {a b : WorkerContext} {sa sb : SenderPC}
    {acts : List Act} (hres : sender_routine sa a = (sb, b, acts))
    (W : List Coroutine) (hW : W.length = n) (rest : List Nat) (c : List Call)
    (o : List String) (fuel : Nat) :
    Runtime.drain (fuel + n)
        { contexts := List.replicate n a, cos := W ++ (List.range n).map (sco sa),
          timers := (List.range n).map (fun i => n + i) ++ rest, calls := c, out := o }
      = Runtime.drain fuel
        { contexts := List.replicate n b, cos := W ++ (List.range n).map (sco sb),
          timers := rest ++ (if sb.isReturned then [] else (List.range n).map (fun i => n + i)),
          calls := c, out := o ++ (List.replicate n (printed acts)).flatten } := by
  have key := drain_family n (fun j =>
    { contexts := sweepList n j (fun _ => b) (fun _ => a),
      cos := W ++ sweepList n j (sco sb) (sco sa),
      timers := (List.range' j (n - j)).map (fun i => n + i)
        ++ (rest ++ if sb.isReturned then [] else (List.range j).map (fun i => n + i)),
      calls := c, out := o ++ (List.replicate j (printed acts)).flatten }) fuel (by
    intro j hj
    refine ⟨n + j, (List.range' (j + 1) (n - (j + 1))).map (fun i => n + i)
      ++ (rest ++ if sb.isReturned then [] else (List.range j).map (fun i => n + i)), ?_, ?_⟩
    · simp only [range'_step n j hj, List.map_cons, List.cons_append]
    · simp only
      rw [switchTo_sender_sweep hj hres W hW, flatten_replicate_succ]
      cases sb.isReturned <;> simp [List.range_succ])
  simp only [sweepList_zero, sweepList_full, map_const_range, Nat.sub_zero, Nat.sub_self,
    List.range'_zero, List.nil_append, List.replicate_zero, List.flatten_nil, List.append_nil,
    List.range_zero, ite_self, List.map_nil, ← List.range_eq_range'] at key
  exact key

theorem flatten_replicate_singleton {α : Type} (n : Nat) (x : α) :
    (List.replicate n [x]).flatten = List.replicate n x := by
  induction n with
  | zero => rfl
  | succ k ih => rw [List.replicate_succ, List.flatten_cons, ih]; rfl

/-- One round of the event loop: every consumer dequeues the value `r`, then
every producer pushes `r + 1`. -/
theorem drain_round (n r : Nat) (hr : r + 1 < 100) (c : List Call) (fuel : Nat) :
    Runtime.drain (fuel + n + n) (roundState n r c)
      = Runtime.drain fuel (roundState n (r + 1) c) := by
  unfold roundState
  rw [drain_worker_sweep (worker_pops r)]
  simp only [worker_isReturned_parked, Bool.false_eq_true, if_false, printed,
    List.filterMap_cons, List.filterMap_nil, List.flatten_replicate_nil, List.append_nil]
  rw [drain_sender_sweep (sender_pushes r hr) _ (by simp)]
  simp [printed]

theorem drain_rounds (n : Nat) (c : List Call) (k : Nat) : ∀ (r fuel : Nat), r + k < 100 →
    Runtime.drain (fuel + k * (n + n)) (roundState n r c)
      = Runtime.drain fuel (roundState n (r + k) c) := by
  induction k with
  | zero => intro r fuel _; simp
  | succ k ih =>
    intro r fuel h
    have e : fuel + (k + 1) * (n + n) = (fuel + k * (n + n)) + n + n := by ring
    rw [e, drain_round n r (by omega), ih (r + 1) fuel (by omega)]
    congr 2
    omega

/-- The end of the event loop: the consumers dequeue 99, the producers set
`done` and return, the consumers print their report and return. -/
theorem drain_last (n : Nat) (c : List Call) (fuel : Nat) :
    Runtime.drain (fuel + 1 + n + n + n) (roundState n 99 c) = some (finalState n c) := by
  unfold roundState
  rw [drain_worker_sweep (worker_pops 99)]
  simp only [worker_isReturned_parked, Bool.false_eq_true, if_false, printed,
    List.filterMap_cons, List.filterMap_nil, List.flatten_replicate_nil, List.append_nil]
  rw [drain_sender_sweep sender_finishes _ (by simp)]
  simp only [sender_isReturned_returned, if_true, printed,
    List.filterMap_cons, List.filterMap_nil, List.flatten_replicate_nil, List.append_nil]
  have h := @drain_worker_sweep n _ _ _ _ _ worker_finishes
    ((List.range n).map (sco SenderPC.returned)) [] c [] (fuel + 1)
  simp only [List.append_nil] at h
  rw [show (99 : Nat) + 1 = 100 from rfl, h]
  simp [Runtime.drain, finalState, printed, flatten_replicate_singleton]

/-- The first event loop of `main` returns, with every consumer having
reported 100 events, when it is given at least `201 * n + 1` dispatches. -/
theorem drain_total (n : Nat) (c : List Call) (fuel : Nat) (h : 201 * n + 1 ≤ fuel) :
    Runtime.drain fuel (roundState n 0 c) = some (finalState n c) := by
  obtain ⟨extra, rfl⟩ := Nat.exists_eq_add_of_le h
  have e : 201 * n + 1 + extra = (extra + 1 + n + n + n) + 99 * (n + n) := by ring
  rw [e, drain_rounds n c 99 0 _ (by omega)]
  exact drain_last n c extra

/-- The creation loop appends one fresh coroutine per context, in index
order, and returns their handles. -/
theorem create_all_eq (fn : Routine) (n : Nat) (rt : Runtime) :
    create_all fn n rt =
      ((List.range n).map (fun i => rt.cos.length + i),
        { rt with
          cos := rt.cos ++ (List.range n).map (fun i => { arg := i, state := fn.entry }),
          calls := rt.calls ++ (List.range n).map (fun i => Call.co_create fn i) }) := by
  have key := foldl_family (fun j =>
    (((List.range j).map (fun i => rt.cos.length + i),
      { rt with
        cos := rt.cos ++ (List.range j).map (fun i => { arg := i, state := fn.entry }),
        calls := rt.calls ++ (List.range j).map (fun i => Call.co_create fn i) })
      : List Nat × Runtime))
    (fun acc i => (acc.1 ++ [(co_create fn i acc.2).1], (co_create fn i acc.2).2)) n (by
      intro j _
      simp [co_create, List.range_succ])
  simpa [create_all] using key

/-- The resume loop over the consumers, whose handles are `0, ..., n-1`. -/
theorem resume_all_workers {n : Nat} {a b : WorkerContext} {wa wb : WorkerPC}
    {acts : List Act} (hres : worker_routine wa a = (wb, b, acts))
    (S : List Coroutine) (t : List Nat) (c : List Call) (o : List String) :
    resume_all (List.range n) n
        { contexts := List.replicate n a, cos := (List.range n).map (wco wa) ++ S,
          timers := t, calls := c, out := o }
      = { contexts := List.replicate n b, cos := (List.range n).map (wco wb) ++ S,
          timers := t ++ (if wb.isReturned then [] else List.range n),
          calls := c ++ (List.range n).map (fun i => Call.co_resume i),
          out := o ++ (List.replicate n (printed acts)).flatten } := by
  have key := foldl_family (fun j =>
    ({ contexts := sweepList n j (fun _ => b) (fun _ => a),
       cos := sweepList n j (wco wb) (wco wa) ++ S,
       timers := t ++ (if wb.isReturned then [] else List.range j),
       calls := c ++ (List.range j).map (fun i => Call.co_resume i),
       out := o ++ (List.replicate j (printed acts)).flatten } : Runtime))
    (fun acc i => co_resume ((List.range n).getD i 0) acc) n (by
      intro j hj
      have hg : (List.range n).getD j 0 = j := by
        simp [List.getD_eq_getElem?_getD, List.getElem?_range hj]
      simp only [hg, co_resume]
      rw [switchTo_worker_sweep hj hres, flatten_replicate_succ]
      cases wb.isReturned <;> simp [List.range_succ])
  simp only [sweepList_zero, sweepList_full, map_const_range, List.replicate_zero,
    List.flatten_nil, List.append_nil, List.range_zero, ite_self, List.map_nil] at key
  exact key

/-- The resume loop over the producers, whose handles are `n, ..., 2n-1`. -/
theorem resume_all_senders {n : Nat} {a b : WorkerContext} {sa sb : SenderPC}
    {acts : List Act} (hres : sender_routine sa a = (sb, b, acts))
    (W : List Coroutine) (hW : W.length = n) (t : List Nat) (c : List Call) (o : List String) :
    resume_all ((List.range n).map (fun i => n + i)) n
        { contexts := List.replicate n a, cos := W ++ (List.range n).map (sco sa),
          timers := t, calls := c, out := o }
      = { contexts := List.replicate n b, cos := W ++ (List.range n).map (sco sb),
          timers := t ++ (if sb.isReturned then [] else (List.range n).map (fun i => n + i)),
          calls := c ++ (List.range n).map (fun i => Call.co_resume (n + i)),
          out := o ++ (List.replicate n (printed acts)).flatten } := by
  have key := foldl_family (fun j =>
    ({ contexts := sweepList n j (fun _ => b) (fun _ => a),
       cos := W ++ sweepList n j (sco sb) (sco sa),
       timers := t ++ (if sb.isReturned then [] else (List.range j).map (fun i => n + i)),
       calls := c ++ (List.range j).map (fun i => Call.co_resume (n + i)),
       out := o ++ (List.replicate j (printed acts)).flatten } : Runtime))
    (fun acc i => co_resume (((List.range n).map (fun i => n + i)).getD i 0) acc) n (by
      intro j hj
      have hg : ((List.range n).map (fun i => n + i)).getD j 0 = n + j := by
        simp [List.getD_eq_getElem?_getD, List.getElem?_range hj]
      simp only [hg, co_resume]
      rw [switchTo_sender_sweep hj hres W hW, flatten_replicate_succ]
      cases sb.isReturned <;> simp [List.range_succ])
  simp only [sweepList_zero, sweepList_full, map_const_range, List.replicate_zero,
    List.flatten_nil, List.append_nil, List.range_zero, ite_self, List.map_nil] at key
  exact key

/-- Event loops called when every coroutine has returned come back at once. -/
theorem eventloop_idle (n fuel : Nat) (hf : 1 ≤ fuel) (l : List Nat) : ∀ c : List Call,
    l.foldlM (fun acc _ => co_eventloop fuel acc) (finalState n c)
      = some (finalState n (c ++ List.replicate l.length Call.co_eventloop)) := by
  obtain ⟨f, rfl⟩ := Nat.exists_eq_add_of_le hf
  induction l with
  | nil => intro c; simp
  | cons x xs ih =>
    intro c
    have h1 : co_eventloop (1 + f) (finalState n c)
        = some (finalState n (c ++ [Call.co_eventloop])) := by
      rw [Nat.add_comm]
      simp [co_eventloop, finalState, Runtime.drain]
    rw [List.foldlM_cons, h1]
    simp only [Option.bind_eq_bind, Option.some_bind]
    rw [ih]
    simp [List.replicate_succ]

/-- The loop of event-loop calls of `main`, from the state reached after the
resume loops. -/
theorem eventloop_all_eq (n fuel : Nat) (hf : 201 * n + 1 ≤ fuel) (c : List Call) :
    eventloop_all fuel n (roundState n 0 c)
      = some (finalState n (c ++ List.replicate n Call.co_eventloop)) := by
  cases n with
  | zero => simp [eventloop_all, roundState, finalState]
  | succ m =>
    have h1 : co_eventloop fuel (roundState (m + 1) 0 c)
        = some (finalState (m + 1) (c ++ [Call.co_eventloop])) :=
      drain_total (m + 1) (c ++ [Call.co_eventloop]) fuel hf
    unfold eventloop_all
    rw [List.range_eq_range', List.range'_succ, List.foldlM_cons, h1]
    simp only [Option.bind_eq_bind, Option.some_bind]
    rw [eventloop_idle (m + 1) fuel (by omega)]
    simp [List.replicate_succ]

/-- A complete run of `main`: with enough fuel it returns, the calls it made
are `mainCalls`, and the standard output is one report of 100 events per
worker followed by the line of the total time. -/
theorem main_eq (cfg : Config) (fuel : Nat) (elapsed : String)
    (hf : 201 * cfg.worker + 1 ≤ fuel) :
    main cfg fuel elapsed = some
      { contexts := List.replicate cfg.worker { queue := [], done := true },
        cos := (List.range cfg.worker).map (wco (WorkerPC.returned 100))
          ++ (List.range cfg.worker).map (sco SenderPC.returned),
        timers := [],
        calls := mainCalls cfg.worker,
        out := List.replicate cfg.worker (report 100) ++ [total_line elapsed] } := by
  have hw := @resume_all_workers cfg.worker _ _ _ _ _ worker_starts []
  have hs := @resume_all_senders cfg.worker _ _ _ _ _ sender_starts
    ((List.range cfg.worker).map (wco (WorkerPC.parked 0))) (by simp)
  simp only [List.append_nil, worker_isReturned_parked, sender_isReturned_parked,
    Bool.false_eq_true, if_false] at hw hs
  have hloop := eventloop_all_eq cfg.worker fuel hf
  have hwco : ∀ pc, wco pc = fun i => { arg := i, state := CoState.worker pc } := fun _ => rfl
  have hsco : ∀ pc, sco pc = fun i => { arg := i, state := CoState.sender pc } := fun _ => rfl
  have hp1 : printed [Act.sleep 1] = [] := rfl
  have hp2 : printed [Act.push (Event.ofInt ((0 : Nat) : Int)), Act.sleep 1] = [] := rfl
  simp only [roundState, finalState, hwco, hsco, hp1, hp2, List.flatten_replicate_nil,
    List.append_nil] at hw hs hloop
  unfold main
  simp only [create_all_eq, List.length_nil, Nat.zero_add, List.map_id', List.nil_append,
    clock_now, Routine.entry, hw, hs, hloop, List.length_map, List.length_range, hwco, hsco,
    mainCalls, timedCalls, List.append_assoc]

theorem filterMap_replicate_none {α β : Type} (f : α → Option β) (a : α) (h : f a = none)
    (n : Nat) : (List.replicate n a).filterMap f = [] := by
  induction n with
  | zero => rfl
  | succ k ih => rw [List.replicate_succ, List.filterMap_cons_none h, ih]

theorem filterMap_const_none {α β : Type} (l : List α) :
    l.filterMap (fun _ => (none : Option β)) = [] := by
  induction l with
  | nil => rfl
  | cons x xs ih => simp [ih]

theorem filterMap_some_fun {α β : Type} (f : α → β) (l : List α) :
    l.filterMap (fun x => some (f x)) = l.map f := by
  induction l with
  | nil => rfl
  | cons x xs ih => simp [ih]

theorem count_map_of_ne {α : Type} (f : α → Call) (c : Call) (h : ∀ i, f i ≠ c) (l : List α) :
    (l.map f).count c = 0 := by
  rw [List.count_eq_zero]
  intro hm
  obtain ⟨i, -, hi⟩ := List.mem_map.1 hm
  exact h i hi

theorem timedCalls_resumed (n : Nat) :
    (timedCalls n).filterMap Call.resumed = List.range (2 * n) := by
  have e : 2 * n = n + n := by omega
  rw [e, List.range_add]
  simp [timedCalls, List.filterMap_append, List.filterMap_map, Function.comp_def, Call.resumed,
    filterMap_replicate_none, filterMap_const_none, filterMap_some_fun]

theorem mainCalls_resumed (n : Nat) :
    (mainCalls n).filterMap Call.resumed = List.range (2 * n) := by
  rw [← timedCalls_resumed]
  simp [mainCalls, List.filterMap_append, List.filterMap_map, Function.comp_def, Call.resumed,
    filterMap_const_none]

theorem mainCalls_created (n : Nat) :
    (mainCalls n).filterMap Call.created
      = (List.range n).map (fun i => (Routine.worker_routine, i))
        ++ (List.range n).map (fun i => (Routine.sender_routine, i)) := by
  simp [mainCalls, timedCalls, List.filterMap_append, List.filterMap_map, Function.comp_def,
    Call.created, filterMap_replicate_none, filterMap_const_none, filterMap_some_fun]

theorem timedCalls_eventloops (n : Nat) :
    (timedCalls n).count Call.co_eventloop = n := by
  simp [timedCalls, List.count_append, List.count_replicate, count_map_of_ne]

theorem mainCalls_eventloops (n : Nat) :
    (mainCalls n).count Call.co_eventloop = n := by
  simp [mainCalls, List.count_append, timedCalls_eventloops, count_map_of_ne]

theorem timedCalls_no_clock (n : Nat) : Call.clock_now ∉ timedCalls n := by
  simp [timedCalls]

theorem timedCalls_no_worker_create (n i : Nat) :
    Call.co_create Routine.worker_routine i ∉ timedCalls n := by
  simp [timedCalls]

/-- Coroutine `h` of a finished run is bound to context `h` when it is a
consumer and to context `h - n` when it is a producer. -/
theorem final_cos_arg (n h : Nat) (wpc : WorkerPC) (spc : SenderPC) :
    (((List.range n).map (wco wpc) ++ (List.range n).map (sco spc))[h]?).map (fun co => co.arg)
      = if h < n then some h else if h < n + n then some (h - n) else none := by
  by_cases h1 : h < n
  · rw [List.getElem?_append_left (by simpa using h1)]
    simp [h1, List.getElem?_range h1, wco]
  · by_cases h2 : h < n + n
    · rw [List.getElem?_append_right (by simpa using h1)]
      have h3 : h - n < n := by omega
      simp [h1, h2, List.getElem?_range h3, sco]
    · rw [List.getElem?_eq_none (by simp; omega)]
      simp [h1, h2]

/-! ## Claims on a worker pair -/

/-- C1 (what the code does): in every interleaving in which the producer has
returned, its actions are the push of 0, sleep(1), the push of 1, sleep(1), ...,
the push of 99, sleep(1), and then the setting of `done`; it has pushed the
100 events with tag INT and values 0..99 whatever the configured
events-per-worker value `E` is, so for every `E` other than 100 it has not
pushed exactly the events 0..E-1. -/
theorem C1_sender_pushes_100_events (E : Nat) (sched : List Routine)
    (h : (Pair.run sched Pair.init).sender = SenderPC.returned) :
    actsOf Routine.sender_routine (Pair.run sched Pair.init).log
        = pushSleep 100 ++ [Act.setDone]
      ∧ pushes (Pair.run sched Pair.init).log = intEvents 100
      ∧ (Pair.run sched Pair.init).ctx.done = true
      ∧ (E ≠ 100 → pushes (Pair.run sched Pair.init).log ≠ intEvents E) := by
  have hinv := inv_reachable sched
  refine ⟨?_, ?_, ?_, ?_⟩
  · simpa [h] using hinv.senderActs
  · simpa [h] using hinv.pushed
  · simpa [h] using hinv.done_eq
  · intro hE hp
    have h100 : pushes (Pair.run sched Pair.init).log = intEvents 100 := by
      simpa [h] using hinv.pushed
    have := congrArg List.length (h100.symm.trans hp)
    simp [intEvents_length] at this
    exact hE this.symm

/-- Witness of C1: the producer run alone to its return, with `E = 10`. -/
theorem C1_sender_pushes_100_events_witness :
    (Pair.run (List.replicate 101 Routine.sender_routine) Pair.init).sender = SenderPC.returned
      ∧ pushes (Pair.run (List.replicate 101 Routine.sender_routine) Pair.init).log
          = intEvents 100
      ∧ pushes (Pair.run (List.replicate 101 Routine.sender_routine) Pair.init).log
          ≠ intEvents 10 :=
  ⟨by decide,
   (C1_sender_pushes_100_events 10 (List.replicate 101 Routine.sender_routine) (by decide)).2.1,
   (C1_sender_pushes_100_events 10 (List.replicate 101 Routine.sender_routine) (by decide)).2.2.2
     (by decide)⟩

/-- C2 as stated fails: after the consumer was resumed once and the producer
ran to its return, the consumer is still running, `done` is true and the queue
holds 100 events; resumed, the consumer returns without dequeuing anything. -/
theorem C2_exit_with_nonempty_queue :
    (Pair.run senderFirst Pair.init).worker.isReturned = false
      ∧ ((Pair.run senderFirst Pair.init).step Routine.worker_routine).worker.isReturned = true
      ∧ (Pair.run senderFirst Pair.init).ctx.done = true
      ∧ (Pair.run senderFirst Pair.init).ctx.queue.length = 100
      ∧ ¬ ((∃ e, Act.pop e ∈ (Pair.run senderFirst Pair.init).emitted Routine.worker_routine
              ∧ e.type = EventType.INT ∧ e.int_val = -1)
            ∨ ((Pair.run senderFirst Pair.init).ctx.done = true
              ∧ (Pair.run senderFirst Pair.init).ctx.queue = [])) := by
  refine ⟨by decide, by decide, by decide, by decide, ?_⟩
  have hq : (Pair.run senderFirst Pair.init).ctx.queue ≠ [] := by decide
  have he : (Pair.run senderFirst Pair.init).emitted Routine.worker_routine
      = [Act.print (report 0)] := by decide
  rw [he]
  simp [hq]

/-- C2 (amended): in every reachable state of a worker pair, a consumer that
leaves its counting loop when resumed has either just dequeued an event with
tag INT and value -1, or found the `done` flag true; the queue is not
examined on that second path. When the state was reached by the alternating
reference interleaving, `done` is true and the queue is empty at that exit. -/
theorem C2_exit_only_on_sentinel_or_done (sched : List Routine)
    (h0 : (Pair.run sched Pair.init).worker.isReturned = false)
    (h1 : ((Pair.run sched Pair.init).step Routine.worker_routine).worker.isReturned = true) :
    ((∃ e, Act.pop e ∈ (Pair.run sched Pair.init).emitted Routine.worker_routine
          ∧ e.type = EventType.INT ∧ e.int_val = -1)
        ∨ (Pair.run sched Pair.init).ctx.done = true)
      ∧ ((∃ n, sched = alternate n) →
          (Pair.run sched Pair.init).ctx.done = true
            ∧ (Pair.run sched Pair.init).ctx.queue = []) := by
  refine ⟨worker_exit_cause _ _ h0 h1, ?_⟩
  rintro ⟨n, rfl⟩
  exact alternate_exit n h0 h1

/-- Witness of the amended C2 at the alternating interleaving of 101 rounds,
after which the consumer is resumed and returns. -/
theorem C2_exit_only_on_sentinel_or_done_witness :
    (Pair.run (alternate 101) Pair.init).worker.isReturned = false
      ∧ ((Pair.run (alternate 101) Pair.init).step Routine.worker_routine).worker.isReturned
          = true
      ∧ (Pair.run (alternate 101) Pair.init).ctx.done = true
      ∧ (Pair.run (alternate 101) Pair.init).ctx.queue = [] :=
  ⟨by decide, by decide,
    (C2_exit_only_on_sentinel_or_done (alternate 101) (by decide) (by decide)).2 ⟨101, rfl⟩⟩

/-- C5: FIFO within a pair. In every interleaving the events dequeued so far
followed by the events still queued are exactly the events pushed so far, so
the dequeued sequence is an initial segment of the pushed one; the k-th event
dequeued has tag INT and value k; no event is dequeued twice. -/
theorem C5_fifo_within_pair (sched : List Routine) :
    pushes (Pair.run sched Pair.init).log
        = pops (Pair.run sched Pair.init).log ++ (Pair.run sched Pair.init).ctx.queue
      ∧ (∃ n, n ≤ 100 ∧ pushes (Pair.run sched Pair.init).log
          = (List.range n).map (fun (k : Nat) =>
              ({ type := EventType.INT, int_val := (k : Int), str_val := "" } : Event)))
      ∧ (∀ k, k < (pops (Pair.run sched Pair.init).log).length →
          ∃ e, (pops (Pair.run sched Pair.init).log)[k]? = some e
            ∧ e.type = EventType.INT ∧ e.int_val = (k : Int))
      ∧ (pops (Pair.run sched Pair.init).log).Nodup := by
  have hinv := inv_reachable sched
  have hpre : pops (Pair.run sched Pair.init).log
      = intEvents (pops (Pair.run sched Pair.init).log).length :=
    intEvents_of_append (hinv.fifo.trans hinv.pushed)
  refine ⟨hinv.fifo.symm, ⟨_, hinv.bound, hinv.pushed⟩, ?_, ?_⟩
  · intro k hk
    refine ⟨Event.ofInt (k : Int), ?_, rfl, rfl⟩
    rw [hpre]
    exact intEvents_getElem? hk
  · rw [hpre]
    exact intEvents_nodup _

/-- Witness of C5 after 102 rounds of the alternating interleaving: 100
events were dequeued and the one at position 99 has tag INT and value 99. -/
theorem C5_fifo_within_pair_witness :
    99 < (pops (Pair.run (alternate 102) Pair.init).log).length
      ∧ ∃ e, (pops (Pair.run (alternate 102) Pair.init).log)[99]? = some e
          ∧ e.type = EventType.INT ∧ e.int_val = ((99 : Nat) : Int) :=
  ⟨by decide, (C5_fifo_within_pair (alternate 102)).2.2.1 99 (by decide)⟩

/-- C7: completion. In every reachable state in which both coroutines of a
pair have returned, `done` is true, the producer has performed its
`done = true` assignment, and exactly one line has been printed, the report
`Processed <count> events.` of the consumer; and in every reachable state a
resumption of the consumer that prints the report starts with `done` true. -/
theorem C7_completion (sched : List Routine) :
    ((Pair.run sched Pair.init).worker.isReturned = true
        ∧ (Pair.run sched Pair.init).sender.isReturned = true →
      (Pair.run sched Pair.init).ctx.done = true
        ∧ Act.setDone ∈ actsOf Routine.sender_routine (Pair.run sched Pair.init).log
        ∧ prints (Pair.run sched Pair.init).log
            = ["Processed " ++ toString (Pair.run sched Pair.init).worker.count ++ " events."])
      ∧ (∀ line, Act.print line ∈ (Pair.run sched Pair.init).emitted Routine.worker_routine →
          (Pair.run sched Pair.init).ctx.done = true)
      ∧ (∀ e ∈ pushes (Pair.run sched Pair.init).log, e.int_val ≠ -1) := by
  have hinv := inv_reachable sched
  refine ⟨?_, ?_, ?_⟩
  · rintro ⟨hw, hs⟩
    refine ⟨hinv.exit_done hw, ?_, ?_⟩
    · rw [hinv.senderActs]
      simp [hs]
    · simpa [hw, report] using hinv.printed
  · intro line hline
    have hs := fun e rest => @Inv.head_not_sentinel _ hinv e rest
    generalize Pair.run sched Pair.init = p at hline hs
    rcases p with ⟨⟨q, d⟩, w, s, log⟩
    cases d
    · exfalso
      cases w <;> cases q <;>
        simp_all [Pair.emitted, worker_routine, worker_loop]
    · rfl
  · intro e he
    rw [hinv.pushed, intEvents] at he
    obtain ⟨k, -, rfl⟩ := List.mem_map.1 he
    simp only [Event.ofInt]
    omega

/-- Witness of C7 after 102 rounds of the alternating interleaving, when
both coroutines have returned. -/
theorem C7_completion_witness :
    (Pair.run (alternate 102) Pair.init).worker.isReturned = true
      ∧ (Pair.run (alternate 102) Pair.init).sender.isReturned = true
      ∧ (Pair.run (alternate 102) Pair.init).ctx.done = true
      ∧ Act.setDone ∈ actsOf Routine.sender_routine (Pair.run (alternate 102) Pair.init).log
      ∧ prints (Pair.run (alternate 102) Pair.init).log
          = ["Processed " ++ toString (Pair.run (alternate 102) Pair.init).worker.count
              ++ " events."] :=
  ⟨by decide, by decide, (C7_completion (alternate 102)).1 ⟨by decide, by decide⟩⟩

/-- C10: pair accounting. In every reachable state, under any interleaving,
the running count of the consumer plus the queue length equals the number of
events pushed so far; no pushed event has value -1; and once `done` is true
it is true in every later state. -/
theorem C10_pair_accounting (sched : List Routine) :
    (Pair.run sched Pair.init).worker.count + (Pair.run sched Pair.init).ctx.queue.length
        = (pushes (Pair.run sched Pair.init).log).length
      ∧ (∀ e ∈ pushes (Pair.run sched Pair.init).log, e.int_val ≠ -1)
      ∧ (∀ later : List Routine, (Pair.run sched Pair.init).ctx.done = true →
          (Pair.run (sched ++ later) Pair.init).ctx.done = true) := by
  have hinv := inv_reachable sched
  refine ⟨?_, ?_, ?_⟩
  · rw [← hinv.fifo, List.length_append, hinv.count]
  · intro e he
    rw [hinv.pushed, intEvents] at he
    obtain ⟨k, -, rfl⟩ := List.mem_map.1 he
    simp only [Event.ofInt]
    omega
  · intro later hd
    rw [run_append]
    exact run_done_mono later _ hd

/-- Witness of C10: once the producer has run to its return `done` is true,
and it is still true after the consumer is resumed. -/
theorem C10_pair_accounting_witness :
    (Pair.run senderFirst Pair.init).ctx.done = true
      ∧ (Pair.run (senderFirst ++ [Routine.worker_routine]) Pair.init).ctx.done = true :=
  ⟨by decide, (C10_pair_accounting senderFirst).2.2 [Routine.worker_routine] (by decide)⟩

/-- C4 (what the code does): in every interleaving the count of the consumer
is at most 100, the literal bound of the producer loop, and under the
alternating interleaving the consumer returns having reported exactly 100; so
for every configured events-per-worker value `E` below 100 the reported count
exceeds `E`. -/
theorem C4_reported_count_exceeds_E (E : Nat) (hE : E < 100) :
    (∀ sched, (Pair.run sched Pair.init).worker.count ≤ 100)
      ∧ ∃ c, (Pair.run (alternate 102) Pair.init).worker = WorkerPC.returned c
          ∧ prints (Pair.run (alternate 102) Pair.init).log = ["Processed " ++ toString c ++ " events."]
          ∧ ¬ c ≤ E := by
  refine ⟨?_, 100, by decide, by decide, by omega⟩
  intro sched
  have hinv := inv_reachable sched
  have h1 : (pops (Pair.run sched Pair.init).log).length
      ≤ (pushes (Pair.run sched Pair.init).log).length := by
    rw [← hinv.fifo, List.length_append]
    omega
  rw [hinv.count, hinv.pushed, intEvents_length] at h1
  exact h1.trans hinv.bound

/-- Witness of C4 at `E = 0`. -/
theorem C4_reported_count_exceeds_E_witness :
    0 < 100
      ∧ ∃ c, (Pair.run (alternate 102) Pair.init).worker = WorkerPC.returned c
        ∧ prints (Pair.run (alternate 102) Pair.init).log
            = ["Processed " ++ toString c ++ " events."]
        ∧ ¬ c ≤ 0 :=
  ⟨by decide, (C4_reported_count_exceeds_E 0 (by decide)).2⟩

/-! ## Claims on the whole program -/

/-- C3 (what the code does): under the reference schedule, for every number
of workers N and every configured events-per-worker value, `main` returns
once the event loop is given `201 * N + 1` dispatches, and its standard output
is N lines `Processed 100 events.` followed by the total-time line: the
reported count is 100, not the configured value. -/
theorem C3_every_consumer_reports_100 (cfg : Config) (fuel : Nat) (elapsed : String)
    (hf : 201 * cfg.worker + 1 ≤ fuel) :
    ∃ rt, main cfg fuel elapsed = some rt
      ∧ rt.out = List.replicate cfg.worker "Processed 100 events."
          ++ ["Total time: " ++ elapsed ++ " seconds"] :=
  ⟨_, main_eq cfg fuel elapsed hf, rfl⟩

/-- Witness of C3 at `-w 1 -e 0`: the single report is `Processed 100 events.`,
not `Processed 0 events.`. -/
theorem C3_every_consumer_reports_100_witness :
    201 * 1 + 1 ≤ 202 ∧ (∃ rt, main { worker := 1, event := 0 } 202 "0.2" = some rt
      ∧ rt.out = List.replicate 1 "Processed 100 events." ++ ["Total time: " ++ "0.2" ++ " seconds"])
      ∧ List.replicate 1 "Processed 100 events." ≠ List.replicate 1 "Processed 0 events." :=
  ⟨by decide, C3_every_consumer_reports_100 { worker := 1, event := 0 } 202 "0.2" (by decide),
    by decide⟩

/-- C6 (what the code does): the option `csv` has no effect. With it on or
off, `main` prints N report lines followed by the total-time line, N + 1
lines in all, and never the single line `<N>,<E>,<elapsed>`. -/
theorem C6_csv_option_is_ignored (cfg : Config) (fuel : Nat) (elapsed : String)
    (hf : 201 * cfg.worker + 1 ≤ fuel) :
    ∃ rt, main { cfg with csv := true } fuel elapsed = some rt
      ∧ main { cfg with csv := false } fuel elapsed = some rt
      ∧ rt.out = List.replicate cfg.worker "Processed 100 events."
          ++ ["Total time: " ++ elapsed ++ " seconds"]
      ∧ rt.out.length = cfg.worker + 1 :=
  ⟨_, main_eq { cfg with csv := true } fuel elapsed hf,
    main_eq { cfg with csv := false } fuel elapsed hf, rfl, by simp⟩

/-- Witness of C6 at `-w 2 -e 5 -c`: three lines are printed, and the
output is not the single line `2,5,0.2`. -/
theorem C6_csv_option_is_ignored_witness :
    201 * 2 + 1 ≤ 403 ∧ (∃ rt, main { worker := 2, event := 5, csv := true } 403 "0.2" = some rt
      ∧ main { worker := 2, event := 5, csv := false } 403 "0.2" = some rt
      ∧ rt.out = List.replicate 2 "Processed 100 events." ++ ["Total time: " ++ "0.2" ++ " seconds"]
      ∧ rt.out.length = 2 + 1)
      ∧ List.replicate 2 "Processed 100 events." ++ ["Total time: " ++ "0.2" ++ " seconds"]
          ≠ ["2,5,0.2"] :=
  ⟨by decide, C6_csv_option_is_ignored { worker := 2, event := 5 } 403 "0.2" (by decide),
    by decide⟩

/-- C8: the calls of `main`. For every N, `main` (given enough dispatches for
its event loop to return) makes, in this order: N consumer creations bound to
contexts 0..N-1, the start-time reading, N resumes of the consumers, N
producer creations bound to contexts 0..N-1, N resumes of the producers, the N
event-loop calls, the end-time reading. So 2N coroutines are created, the
handles resumed are 0, 1, ..., 2N-1, each once and before the first
event-loop call; coroutine i and coroutine N+i are the consumer and the
producer bound to context i and no other coroutine is bound to it; and the
calls between the two clock readings hold every resume and every event-loop
call and no consumer creation. -/
theorem C8_call_sequence_of_main (cfg : Config) (fuel : Nat) (elapsed : String)
    (hf : 201 * cfg.worker + 1 ≤ fuel) :
    ∃ rt, main cfg fuel elapsed = some rt
      ∧ rt.calls =
          (List.range cfg.worker).map (fun i => Call.co_create Routine.worker_routine i)
            ++ [Call.clock_now]
            ++ (List.range cfg.worker).map (fun i => Call.co_resume i)
            ++ (List.range cfg.worker).map (fun i => Call.co_create Routine.sender_routine i)
            ++ (List.range cfg.worker).map (fun i => Call.co_resume (cfg.worker + i))
            ++ List.replicate cfg.worker Call.co_eventloop
            ++ [Call.clock_now]
      ∧ rt.cos.length = 2 * cfg.worker
      ∧ rt.calls.filterMap Call.created
          = (List.range cfg.worker).map (fun i => (Routine.worker_routine, i))
            ++ (List.range cfg.worker).map (fun i => (Routine.sender_routine, i))
      ∧ rt.calls.filterMap Call.resumed = List.range (2 * cfg.worker)
      ∧ (∀ i, i < cfg.worker →
          (rt.cos[i]?).map (fun co => co.arg) = some i
            ∧ (rt.cos[cfg.worker + i]?).map (fun co => co.arg) = some i)
      ∧ (∀ h i, (rt.cos[h]?).map (fun co => co.arg) = some i → h = i ∨ h = cfg.worker + i)
      ∧ (∃ setup timed, rt.calls = setup ++ [Call.clock_now] ++ timed ++ [Call.clock_now]
          ∧ Call.clock_now ∉ setup ∧ Call.clock_now ∉ timed
          ∧ timed.filterMap Call.resumed = List.range (2 * cfg.worker)
          ∧ timed.count Call.co_eventloop = cfg.worker
          ∧ ∀ i, Call.co_create Routine.worker_routine i ∉ timed) := by
  refine ⟨_, main_eq cfg fuel elapsed hf, ?_, by simp; omega, mainCalls_created cfg.worker,
    mainCalls_resumed cfg.worker, ?_, ?_, ?_⟩
  · simp [mainCalls, timedCalls, List.append_assoc]
  · intro i hi
    simp only [final_cos_arg]
    refine ⟨by simp [hi], ?_⟩
    have h1 : ¬ cfg.worker + i < cfg.worker := by omega
    have h2 : cfg.worker + i < cfg.worker + cfg.worker := by omega
    simp [h1, h2]
  · intro h i hh
    simp only [final_cos_arg] at hh
    split at hh
    · left
      simpa using hh
    · split at hh
      · right
        have := Option.some.inj hh
        omega
      · simp at hh
  · exact ⟨_, timedCalls cfg.worker, rfl, by simp, timedCalls_no_clock cfg.worker,
      timedCalls_resumed cfg.worker, timedCalls_eventloops cfg.worker,
      timedCalls_no_worker_create cfg.worker⟩

/-- Witness of C8 with two workers. -/
theorem C8_call_sequence_of_main_witness :
    201 * 2 + 1 ≤ 403
      ∧ ∃ rt, main { worker := 2 } 403 "0.2" = some rt
        ∧ rt.calls =
          [Call.co_create Routine.worker_routine 0, Call.co_create Routine.worker_routine 1,
           Call.clock_now,
           Call.co_resume 0, Call.co_resume 1,
           Call.co_create Routine.sender_routine 0, Call.co_create Routine.sender_routine 1,
           Call.co_resume 2, Call.co_resume 3,
           Call.co_eventloop, Call.co_eventloop,
           Call.clock_now] := by
  obtain ⟨rt, h1, h2, -⟩ := C8_call_sequence_of_main { worker := 2 } 403 "0.2" (by decide)
  exact ⟨by decide, rt, h1, h2⟩

/-- C9 as stated fails: with two workers `main` calls the event loop twice. -/
theorem C9_two_workers_two_eventloop_calls :
    (main { worker := 2 } 403 "0.2").map (fun rt => rt.calls.count Call.co_eventloop) = some 2
      ∧ (2 : Nat) ≠ 1 := by
  rw [main_eq { worker := 2 } 403 "0.2" (by decide)]
  exact ⟨by decide, by decide⟩

/-- C9 (amended): for every N, `main` calls the event loop exactly N times,
once per worker pair (so exactly once when N = 1); these calls come after the
resumes of all 2N coroutines, no event-loop call comes earlier, and the
end-time reading follows the last of them. -/
theorem C9_eventloop_called_once_per_worker (cfg : Config) (fuel : Nat) (elapsed : String)
    (hf : 201 * cfg.worker + 1 ≤ fuel) :
    ∃ rt before, main cfg fuel elapsed = some rt
      ∧ rt.calls = before ++ List.replicate cfg.worker Call.co_eventloop ++ [Call.clock_now]
      ∧ Call.co_eventloop ∉ before
      ∧ before.filterMap Call.resumed = List.range (2 * cfg.worker)
      ∧ rt.calls.count Call.co_eventloop = cfg.worker := by
  refine ⟨_, (List.range cfg.worker).map (fun i => Call.co_create Routine.worker_routine i)
      ++ [Call.clock_now]
      ++ (List.range cfg.worker).map (fun i => Call.co_resume i)
      ++ (List.range cfg.worker).map (fun i => Call.co_create Routine.sender_routine i)
      ++ (List.range cfg.worker).map (fun i => Call.co_resume (cfg.worker + i)),
    main_eq cfg fuel elapsed hf, ?_, ?_, ?_, mainCalls_eventloops cfg.worker⟩
  · simp [mainCalls, timedCalls, List.append_assoc]
  · simp
  · have h := mainCalls_resumed cfg.worker
    simpa [mainCalls, timedCalls, List.filterMap_append, filterMap_replicate_none,
      Call.resumed] using h

/-- Witness of the amended C9 with one worker, where the count is one. -/
theorem C9_eventloop_called_once_per_worker_witness :
    201 * 1 + 1 ≤ 202
      ∧ ∃ rt before, main { worker := 1 } 202 "0.2" = some rt
        ∧ rt.calls = before ++ List.replicate 1 Call.co_eventloop ++ [Call.clock_now]
        ∧ Call.co_eventloop ∉ before
        ∧ before.filterMap Call.resumed = List.range (2 * 1)
        ∧ rt.calls.count Call.co_eventloop = 1 :=
  ⟨by decide, C9_eventloop_called_once_per_worker { worker := 1 } 202 "0.2" (by decide)⟩

end PerfTest
